import Mathlib

/-
Verification development for the shrdlite blocks-world planner.

The development shallowly embeds the planning core: the physical-laws
checker (PhysicalLaws.ts), the world-state graph (WorldGraph.ts), the
goal and heuristic adapters (Planner.ts and the planner draft in
src/unnamed/part_005), and the A* search engine that the planner links
against (src/Graph.js, whose TypeScript source is the first aStarSearch
in src/unnamed/part_007).

JavaScript values are modelled as follows: strings as String, numbers
as Nat or Int (all scores in this system are integers), null and
undefined as Option.none, arrays as List.  Where a JS quirk matters
(an absent dictionary key read as undefined, a stale variable, the
global `length` in `splice(length - 1)`) the embedding reproduces it
and a comment points at the source line.
-/

namespace Shrdlite

/-- Object descriptor, from Parser.Object as used by PhysicalLaws.ts:
a form string, an optional size string and an optional color string.
JS null and undefined are both modelled as none. -/
structure ParserObject where
  form : String
  size : Option String
  color : Option String
deriving DecidableEq, Repr

/-- SIZE enum from PhysicalLaws.ts: small = 0, large = 1, undefined = 2. -/
def SIZE.small : Nat := 0

/-- SIZE.large member of the SIZE enum in PhysicalLaws.ts. -/
def SIZE.large : Nat := 1

/-- SIZE.undefined member of the SIZE enum in PhysicalLaws.ts. -/
def SIZE.undefined : Nat := 2

namespace FORM

/-- FORM.brick from the FORM string table in PhysicalLaws.ts. -/
def brick : String := "brick"

/-- FORM.plank from the FORM string table in PhysicalLaws.ts. -/
def plank : String := "plank"

/-- FORM.ball from the FORM string table in PhysicalLaws.ts. -/
def ball : String := "ball"

/-- FORM.pyramid from the FORM string table in PhysicalLaws.ts. -/
def pyramid : String := "pyramid"

/-- FORM.box from the FORM string table in PhysicalLaws.ts. -/
def box : String := "box"

/-- FORM.table from the FORM string table in PhysicalLaws.ts. -/
def table : String := "table"

/-- FORM.floor from the FORM string table in PhysicalLaws.ts. -/
def floor : String := "floor"

end FORM

/-- getSize from PhysicalLaws.ts: maps the size string to the SIZE enum;
the default branch (anything other than "small" or "large", including
null and undefined) yields SIZE.undefined. -/
def getSize (size : Option String) : Nat :=
  match size with
  | some "small" => SIZE.small
  | some "large" => SIZE.large
  | _ => SIZE.undefined

/-- lte from PhysicalLaws.ts: getSize(size1) <= getSize(size2). -/
def lte (size1 size2 : Option String) : Bool :=
  decide (getSize size1 ≤ getSize size2)

/-- equalSize from PhysicalLaws.ts: getSize(size1) == getSize(size2). -/
def equalSize (size1 size2 : Option String) : Bool :=
  decide (getSize size1 = getSize size2)

/-- passLaws from PhysicalLaws.ts lines 44-85.  When polarity is false
the two arguments are swapped first; then: a ball supporter rejects
everything; the size guard lte(obj.size, locObj.size) must hold or the
placement is rejected; inside the guard the switch on the supported
form decides (ball only on box or floor; box restricted by size and
supporter form; any other form allowed). -/
def passLaws (obj locObj : ParserObject) (polarity : Bool) : Bool :=
  -- if (!polarity) swap obj and locObj (lines 46-50)
  let p := if !polarity then (locObj, obj) else (obj, locObj)
  let obj := p.1
  let locObj := p.2
  if locObj.form == FORM.ball then
    false
  else if lte obj.size locObj.size then
    -- switch (obj.form), lines 59-81
    if obj.form == FORM.ball then
      locObj.form == FORM.box || locObj.form == FORM.floor
    else if obj.form == FORM.box then
      if equalSize obj.size locObj.size then
        !(locObj.form == FORM.pyramid || locObj.form == FORM.plank ||
          locObj.form == FORM.box)
      else if getSize obj.size == SIZE.small then
        !(locObj.form == FORM.brick || locObj.form == FORM.pyramid)
      else if getSize obj.size == SIZE.large then
        !(locObj.form == FORM.pyramid)
      else
        true
    else
      true
  else
    false

/-- Test descriptor: a brick whose size string is null (unknown size). -/
def brickUnknown : ParserObject := ⟨FORM.brick, none, none⟩

/-- Test descriptor: a large table. -/
def tableLarge : ParserObject := ⟨FORM.table, some "large", none⟩

/-- Test descriptor: a table whose size string is null (unknown size). -/
def tableUnknown : ParserObject := ⟨FORM.table, none, none⟩

/-! World-state graph, from WorldGraph.ts. -/

/-- Stack of object identifiers, bottom to top (World.ts). -/
abbrev Stack := List String

/-- WorldNode from WorldGraph.ts: stacks, holding and arm.  holding is
a JS string that may be null or undefined, modelled as Option; arm is
a JS number, modelled as Int so that goLeft is total as in the source. -/
structure WorldNode where
  «stacks» : List Stack
  holding : Option String
  arm : Int
deriving DecidableEq, Repr

/-- Edge record from Graph.js: from, to, cost and action.  The from
field is spelled frm because from is reserved in Lean. -/
structure SEdge (Node : Type) where
  frm : Node
  «to» : Node
  cost : Int
  action : String
deriving DecidableEq, Repr

/-- pickup from WorldGraph.ts lines 97-107: holding becomes
stack[stack.length - 1] (undefined, i.e. none, when the arm column is
empty) and, when the column is non-empty, the top object is removed.
The source writes `stack.splice(length - 1)` where `length` is the
global (0 in a browser), i.e. splice(-1), which also removes exactly
the last element. -/
def pickup (node : WorldNode) : WorldNode :=
  let stack := node.stacks.getD node.arm.toNat []
  let holding := stack.getLast?
  let stack' := if stack.length > 0 then stack.dropLast else stack
  ⟨node.stacks.set node.arm.toNat stack', holding, node.arm⟩

/-- drop from WorldGraph.ts lines 109-117: pushes the held identifier
onto the arm column and clears holding.  The graph generates a drop
edge only when holding is truthy; Option.toList pushes nothing in the
(unreachable from outgoingEdges) null-holding case, where JS would
push null onto the column. -/
def drop (node : WorldNode) : WorldNode :=
  let stack := node.stacks.getD node.arm.toNat []
  let stack' := stack ++ node.holding.toList
  ⟨node.stacks.set node.arm.toNat stack', none, node.arm⟩

/-- goLeft from WorldGraph.ts lines 119-121: decrement arm only. -/
def goLeft (node : WorldNode) : WorldNode :=
  ⟨node.stacks, node.holding, node.arm - 1⟩

/-- goRight from WorldGraph.ts lines 123-125: increment arm only. -/
def goRight (node : WorldNode) : WorldNode :=
  ⟨node.stacks, node.holding, node.arm + 1⟩

/-- getOutgoing from WorldGraph.ts lines 88-95: wraps an action
application as an edge of cost 1. -/
def getOutgoing (node : WorldNode) (method : WorldNode → WorldNode)
    (action : String) : SEdge WorldNode :=
  ⟨node, method node, 1, action⟩

/-- WorldGraph.outgoingEdges from WorldGraph.ts lines 43-76.  The pick
edge is guarded only by `!node.holding`; the drop edge by holding plus
an empty destination or passLaws on the top object; left by arm > 0;
right by arm < stacks.length - 1.  The objects dictionary is modelled
as a total function (the planner supplies a descriptor for every
identifier in the world). -/
def outgoingEdges (objects : String → ParserObject) (node : WorldNode) :
    List (SEdge WorldNode) :=
  (if node.holding.isNone then [getOutgoing node pickup "p"] else []) ++
  (match node.holding with
   | some holding =>
      let stack := node.stacks.getD node.arm.toNat []
      if stack.length = 0 then
        [getOutgoing node drop "d"]
      else
        let topObject := (stack.getLast?).getD ""
        if passLaws (objects holding) (objects topObject) true then
          [getOutgoing node drop "d"]
        else []
   | none => []) ++
  (if node.arm > 0 then [getOutgoing node goLeft "l"] else []) ++
  (if node.arm < (node.stacks.length : Int) - 1 then
    [getOutgoing node goRight "r"] else [])

/-- Object table for concrete scenarios: every identifier is a small
brick (the descriptors are irrelevant to the scenarios used). -/
def objA : String → ParserObject := fun _ => ⟨FORM.brick, some "small", none⟩

/-- Node with a single empty column, holding nothing, arm at 0. -/
def emptyColNode : WorldNode := ⟨[[]], none, 0⟩

/-- Identifiers occurring in a node: all columns flattened, then the
held object, if any. -/
def allIds (node : WorldNode) : List String :=
  node.stacks.flatten ++ node.holding.toList

/-- Data-model invariant of the spec: every object identifier occurs
in exactly one place - in exactly one column at exactly one row, or as
holding - never both, never duplicated.  Equivalently the listing of
all occurrences has no duplicates. -/
def UniquePlacement (node : WorldNode) : Prop :=
  (allIds node).Nodup

instance (node : WorldNode) : Decidable (UniquePlacement node) :=
  inferInstanceAs (Decidable (allIds node).Nodup)

/-! Goal adapter, from Planner.ts. -/

/-- Literal from Interpreter.ts: polarity, relation and argument
list. -/
structure Literal where
  polarity : Bool
  relation : String
  args : List String
deriving DecidableEq, Repr

/-- DNFFormula from Interpreter.ts: a disjunction of conjunctions of
literals. -/
abbrev DNFFormula := List (List Literal)

/-- RELATION string table from PhysicalLaws.ts lines 15-23.  Note that
it has no entry for "holding". -/
def RELATION : List (String × String) :=
  [("ontop", "ontop"), ("inside", "inside"), ("above", "above"),
   ("under", "under"), ("beside", "beside"), ("leftof", "leftof"),
   ("rightof", "rightof")]

/-- Member access RELATION.key in JS: the value when the key is
present, undefined (none) otherwise.  In particular
relationMember "holding" = none. -/
def relationMember (key : String) : Option String :=
  (RELATION.find? (fun p => p.1 == key)).map (fun p => p.2)

/-- JS strict equality between a string and a possibly-undefined
string: a string is never === undefined. -/
def jsStrEqOpt (s : String) (o : Option String) : Bool :=
  match o with
  | some t => s == t
  | none => false

/-- existInStack from Planner.ts lines 323-332: linear scan with break
on first match. -/
def existInStack (stack : List String) (obj : String) : Bool :=
  stack.any (fun o => o == obj)

/-- existInStack applied to a possibly-undefined object (JS compares
stack[row] === obj, false everywhere when obj is undefined). -/
def existInStackU (stack : List String) (obj : Option String) : Bool :=
  stack.any (fun o => (some o : Option String) == obj)

/-- Index of the last occurrence of x in s, as computed by the
stack.forEach loop of Planner.ts lines 133-135 (each match overwrites
row, so the last one wins). -/
def lastIdxAux (l : List String) (x : String) (i : Nat)
    (acc : Option Nat) : Option Nat :=
  match l with
  | [] => acc
  | y :: t => lastIdxAux t x (i + 1) (if y == x then some i else acc)

/-- Top-level entry for the last-occurrence scan. -/
def lastIdx (s : List String) (x : String) : Option Nat :=
  lastIdxAux s x 0 none

/-- Mutable locals of the goal closure of Planner.ts lines 105-204
that survive from one literal to the next: found (line 106), row
(line 111) and stack (line 110) are declared outside the loops and are
never reset, so they carry stale values across literals and
conjunctions. -/
structure GoalSt where
  found : Bool
  row : Option Nat
  stack : List String
deriving DecidableEq, Repr

/-- Processing of a single literal by the goal closure of Planner.ts
lines 116-198.  Sum.inl is the early return taken in the
`case RELATION.holding:` branch; since the RELATION table has no
holding entry, that case label is undefined and the branch can never
be taken for a string-valued relation, so every literal - including
one whose relation is "holding" - falls into the default branch, which
searches the columns only.  All JS quirks are kept: if the object is
in no column, stack keeps the last column (or its previous value when
there are no columns) and row keeps its previous value; comparisons
with literal.args[1] use strict equality where undefined === undefined
is true. -/
def goalLiteral (node : WorldNode) (literal : Literal) (st : GoalSt) :
    Sum Bool GoalSt :=
  if jsStrEqOpt literal.relation (relationMember "holding") then
    -- return literal.args[0] === node.holding (dead code, see above)
    Sum.inl (match node.holding with
      | some h => literal.args.getD 0 "" == h
      | none => false)
  else
    let arg0 := literal.args.getD 0 ""
    let arg1 := literal.args.get? 1
    let stackPos := node.stacks.findIdx? (fun s => existInStack s arg0)
    let stack :=
      match stackPos with
      | some i => node.stacks.getD i []
      | none =>
        match node.stacks.getLast? with
        | some last => last
        | none => st.stack
    let row :=
      match lastIdx stack arg0 with
      | some r => some r
      | none => st.row
    let found :=
      match row with
      | none => st.found
      | some r =>
        match literal.relation with
        | "inside" | "ontop" =>
          st.found ||
            ((decide (r = 0) && (arg1 == some FORM.floor)) ||
              ((if r = 0 then none else stack.get? (r - 1)) == arg1))
        | "under" =>
          st.found || (stack.drop (r + 1)).any
            (fun o => (some o : Option String) == arg1)
        | "above" =>
          -- the loop scans indices row-1 down to 0 even beyond the
          -- stack length when row is stale; stack[i] is then undefined
          st.found || (List.range r).any (fun i => stack.get? i == arg1)
        | "beside" =>
          match stackPos with
          | none => st.found
          | some p =>
            let f1 := if p > 0 then existInStackU (node.stacks.getD (p - 1) []) arg1
                      else st.found
            if !f1 && decide (p < node.stacks.length - 1) then
              existInStackU (node.stacks.getD (p + 1) []) arg1
            else f1
        | "leftof" =>
          match stackPos with
          | none => st.found
          | some p =>
            st.found || (node.stacks.drop (p + 1)).any
              (fun s => existInStackU s arg1)
        | "rightof" =>
          match stackPos with
          | none => st.found
          | some p =>
            st.found || (node.stacks.take p).any (fun s => existInStackU s arg1)
        | _ => st.found
    Sum.inr ⟨found, row, stack⟩

/-- Literal loop of one conjunction (Planner.ts lines 115-199),
propagating the early return. -/
def goalConj (node : WorldNode) (lits : List Literal) (st : GoalSt) :
    Sum Bool GoalSt :=
  match lits with
  | [] => Sum.inr st
  | l :: rest =>
    match goalLiteral node l st with
    | Sum.inl b => Sum.inl b
    | Sum.inr st' => goalConj node rest st'

/-- Conjunction loop (Planner.ts lines 113-200), returning found at
the end. -/
def goalDNF (node : WorldNode) (conjs : DNFFormula) (st : GoalSt) : Bool :=
  match conjs with
  | [] => st.found
  | c :: rest =>
    match goalConj node c st with
    | Sum.inl b => b
    | Sum.inr st' => goalDNF node rest st'

/-- goal from Planner.ts lines 105-204: found starts false, row starts
null, stack starts undeclared (modelled as [] - JS would throw if it
were read before any column is scanned, which requires a world with no
columns). -/
def goal (interpretation : DNFFormula) (node : WorldNode) : Bool :=
  goalDNF node interpretation ⟨false, none, []⟩

/-- Modelled from the spec: satisfaction of a single positive literal
against a node, following section 4.4 word for word (holding; ontop
and inside; under; above; beside; leftof; rightof; anything else, or
an X found in no column, is false). -/
def litHoldsSpec (node : WorldNode) (lit : Literal) : Bool :=
  let X := lit.args.getD 0 ""
  let Y := lit.args.getD 1 ""
  if lit.relation == "holding" then
    node.holding == some X
  else
    match node.stacks.findIdx? (fun s => s.contains X) with
    | none => false
    | some c =>
      let stack := node.stacks.getD c []
      let r := (stack.indexOf X)
      match lit.relation with
      | "ontop" | "inside" =>
        (decide (r = 0) && (Y == FORM.floor)) ||
          (decide (1 ≤ r) && (stack.get? (r - 1) == some Y))
      | "under" => (stack.drop (r + 1)).contains Y
      | "above" => (stack.take r).contains Y
      | "beside" =>
        (decide (0 < c) && (node.stacks.getD (c - 1) []).contains Y) ||
          (decide (c < node.stacks.length - 1) &&
            (node.stacks.getD (c + 1) []).contains Y)
      | "leftof" => (node.stacks.drop (c + 1)).any (fun s => s.contains Y)
      | "rightof" => (node.stacks.take c).any (fun s => s.contains Y)
      | _ => false

/-- Modelled from the spec: DNF satisfaction - true iff at least one
conjunction has every literal satisfied (spec section 4.4). -/
def dnfGoalSpec (interpretation : DNFFormula) (node : WorldNode) : Bool :=
  interpretation.any (fun conj => conj.all (fun lit => litHoldsSpec node lit))

/-! Heuristic adapters: the one in Planner.ts and the one in the
planner draft src/unnamed/part_005. -/

/-- Position record of Planner.ts: column and row of an occurrence. -/
structure Pos where
  col : Nat
  row : Nat
deriving DecidableEq, Repr

/-- getObjectPositions from Planner.ts lines 307-321: the (col, row)
pairs of every occurrence of the object, plus (col, 0) for every empty
column when the object is the floor. -/
def getObjectPositions («stacks» : List Stack) (object : String) : List Pos :=
  stacks.enum.flatMap (fun ks =>
    (ks.2.enum.filterMap (fun le =>
      if le.2 == object then some ⟨ks.1, le.1⟩ else none)) ++
    (if object == FORM.floor && ks.2.length == 0 then [(⟨ks.1, 0⟩ : Pos)] else []))

/-- Number.MAX_VALUE, the initial minimum of both heuristics, as an
exact integer: the largest finite IEEE double, (2^53 - 1) * 2^971,
written as a literal so that proofs reduce it cheaply. -/
def MAX_VALUE : Int := 179769313486231570814527423731704356798070567525844996598917476803157260780028538760589558632766878171540458953514382464234321326889464182768467546703537516986049910576551282076245490090389328944075868508455133942304583236903222948165808559332123348274797826204144723168738177180919299881250404026184124858368

/-- heuristic from Planner.ts lines 206-259: for each literal, the
primary object's column (the arm when held, else the first recorded
position; the source throws when the object is nowhere - the 0 default
is unreachable in our uses); when args[1] exists, for every position
of args[1] the column distance adjusted per relation (beside takes
|value - 1|, leftof/rightof subtract 1 when the arm is beyond the
target) lowers the minimum; when args[1] is undefined the minimum is
overwritten (not lowered) with |objCol - arm|. -/
def heuristicP (interpretation : DNFFormula) (node : WorldNode) : Int :=
  if interpretation.length = 0 then 0
  else
    interpretation.foldl (fun minv conj =>
      conj.foldl (fun minv literal =>
        let a0 := literal.args.getD 0 ""
        let objCol : Int :=
          if node.holding == some a0 then node.arm
          else
            match (getObjectPositions node.stacks a0).head? with
            | some p => (p.col : Int)
            | none => 0
        match literal.args.get? 1 with
        | some a1 =>
          (getObjectPositions node.stacks a1).foldl (fun minv pos =>
            let value0 : Int := ((objCol - (pos.col : Int)).natAbs : Int)
            let value : Int :=
              if literal.relation == "beside" then ((value0 - 1).natAbs : Int)
              else if literal.relation == "leftof" then
                (if node.arm < (pos.col : Int) then value0 - 1 else value0)
              else if literal.relation == "rightof" then
                (if node.arm > (pos.col : Int) then value0 - 1 else value0)
              else value0
            if value < minv then value else minv) minv
        | none => ((objCol - node.arm).natAbs : Int)) minv) MAX_VALUE

/-- posInStack from part_005 lines 305-314: index of the first
occurrence, -1 when absent. -/
def posInStack (stack : List String) (obj : String) : Int :=
  match stack.findIdx? (fun o => o == obj) with
  | some i => (i : Int)
  | none => -1

/-- Mutable locals of the part_005 heuristic that survive from one
literal to the next: h (the running minimum), the cached object name
and its cached pos, stack index and objects-above count.  The zero
initial values stand for JS undefined; they are read only in
situations excluded by the hypotheses of the equivalence theorem. -/
structure H5St where
  h : Int
  obj : String
  pos : Int
  stackIdx : Nat
  objsAbove : Int
deriving DecidableEq, Repr

/-- Search loop of part_005 lines 222-229: scan the columns, keeping
posInStack of each scanned column in pos, and record the index of the
first column that contains the object; when no column contains it, pos
ends at -1 (or keeps its previous value if there are no columns) and
the stack index keeps its previous value. -/
def h5Find («stacks» : List Stack) (a0 : String) (stPos : Int) (stIdx : Nat) :
    Int × Nat :=
  match stacks.findIdx? (fun s => posInStack s a0 != -1) with
  | some k => (posInStack (stacks.getD k []) a0, k)
  | none => (if stacks.isEmpty then stPos else -1, stIdx)

/-- One literal of the part_005 heuristic (lines 208-240).  Sum.inl is
the `h = 1; break` taken when the node holds a (not cached) primary
object; otherwise the contribution objsAbove * 4 + |arm - stack| + 1
(recomputed on cache miss, reused on cache hit) lowers h if smaller. -/
def h5Literal (node : WorldNode) (literal : Literal) (st : H5St) :
    Sum H5St H5St :=
  let a0 := literal.args.getD 0 ""
  if st.obj == a0 then
    let curH : Int :=
      st.objsAbove * 4 + ((node.arm - (st.stackIdx : Int)).natAbs : Int) + 1
    Sum.inr { st with h := if curH < st.h then curH else st.h }
  else
    if node.holding == some a0 then
      Sum.inl { st with h := 1, obj := a0 }
    else
      let pk := h5Find node.stacks a0 st.pos st.stackIdx
      let objsAbove : Int :=
        ((node.stacks.getD pk.2 []).length : Int) - pk.1 - 1
      let curH : Int :=
        objsAbove * 4 + ((node.arm - (pk.2 : Int)).natAbs : Int) + 1
      Sum.inr ⟨if curH < st.h then curH else st.h, a0, pk.1, pk.2, objsAbove⟩

/-- Literal loop of one conjunction of the part_005 heuristic,
stopping at the break. -/
def h5Conj (node : WorldNode) (lits : List Literal) (st : H5St) : H5St :=
  match lits with
  | [] => st
  | l :: rest =>
    match h5Literal node l st with
    | Sum.inl st' => st'
    | Sum.inr st' => h5Conj node rest st'

/-- heuristic from part_005 lines 197-243: h starts at
Number.MAX_VALUE, the object cache is reset to "" at the start of each
conjunction, and the final h is returned. -/
def heuristic5 (interpretation : DNFFormula) (node : WorldNode) : Int :=
  (interpretation.foldl (fun st conj => h5Conj node conj { st with obj := "" })
    ⟨MAX_VALUE, "", 0, 0, 0⟩).h

/-- Modelled from the claim (C9): the per-literal contribution - 1
when the node holds the primary object, otherwise (objects above) * 4
+ |arm - column| + 1, the column and row being those of the first
occurrence; 0 is a placeholder for an object that is nowhere (the
claim presupposes existence and the equivalence theorem excludes the
case). -/
def claimContributionStr (node : WorldNode) (prim : String) : Int :=
  if node.holding == some prim then 1
  else
    match node.stacks.findIdx? (fun s => s.contains prim) with
    | some c =>
      let stack := node.stacks.getD c []
      let r := (stack.findIdx? (fun o => o == prim)).getD 0
      ((stack.length : Int) - (r : Int) - 1) * 4 +
        ((node.arm - (c : Int)).natAbs : Int) + 1
    | none => 0

/-- Contribution of a literal: the contribution of its primary
(first) argument. -/
def claimContribution (node : WorldNode) (lit : Literal) : Int :=
  claimContributionStr node (lit.args.getD 0 "")

/-- Modelled from the claim (C9): the minimum contribution over all
literals of all conjunctions, starting from Number.MAX_VALUE. -/
def claimHeuristic (interpretation : DNFFormula) (node : WorldNode) : Int :=
  (interpretation.flatten.map (claimContribution node)).foldl min MAX_VALUE

/-- Cache soundness for the part_005 heuristic state: either the cache
is empty (the per-conjunction reset), or the cached object is not held
and the cached objsAbove and stack index reproduce exactly the claimed
contribution of the cached object. -/
def CacheOK (node : WorldNode) (st : H5St) : Prop :=
  st.obj = "" ∨
    ((node.holding == some st.obj) = false ∧
      st.objsAbove * 4 + ((node.arm - (st.stackIdx : Int)).natAbs : Int) + 1 =
        claimContributionStr node st.obj)

/-! A* search engine, from src/Graph.js (the first aStarSearch of
src/unnamed/part_007) - the variant the planner links against, the
only one whose SearchResult carries the actions.

The engine keys its dictionaries and sets by JSON.stringify(node).
The serialization is injective on the structural value (stacks,
holding, arm), so the embedding keys directly by the node value with
structural (decidable) equality.  The collections.ts PriorityQueue is
not part of the sources; modelled from the spec: an open structure
ordered by ascending fScore with deterministic tie-breaking - dequeue
returns the earliest-enqueued node among those with minimal fScore. -/

/-- SearchResult from Graph.js: path, cost and actions. -/
structure SearchResult (Node : Type) where
  path : List Node
  cost : Int
  actions : List String
deriving DecidableEq, Repr

/-- Lookup in an association list, the model of
collections.Dictionary.getValue (undefined when absent). -/
def alookup {Node α : Type} [DecidableEq Node]
    (l : List (Node × α)) (k : Node) : Option α :=
  (l.find? (fun p => p.1 == k)).map (fun p => p.2)

/-- Insert-or-overwrite in an association list, the model of
collections.Dictionary.setValue. -/
def aset {Node α : Type} [DecidableEq Node] :
    List (Node × α) → Node → α → List (Node × α)
  | [], k, v => [(k, v)]
  | (k', v') :: t, k, v =>
    if k' == k then (k, v) :: t else (k', v') :: aset t k v

/-- fScore of a node as the priority comparator reads it (every node
in the open list has an fScore entry; 0 is the placeholder for the
unreachable undefined read). -/
def fVal {Node : Type} [DecidableEq Node]
    (fS : List (Node × Int)) (n : Node) : Int :=
  (alookup fS n).getD 0

/-- Modelled from the spec: dequeue of the open priority structure -
the earliest-enqueued node among those of minimal fScore, together
with the remaining queue. -/
def popMinF {Node : Type} [DecidableEq Node]
    (fS : List (Node × Int)) : List Node → Option (Node × List Node)
  | [] => none
  | n :: rest =>
    match popMinF fS rest with
    | none => some (n, rest)
    | some (m, rest') =>
      if fVal fS n ≤ fVal fS m then some (n, rest) else some (m, n :: rest')

/-- Bookkeeping state of the aStarSearch loop in Graph.js: the open
list (in enqueue order), the frontier and explored dictionaries, the
gScore, fScore and cameFrom dictionaries, the deltaTime measured at
the end of the previous iteration, the iteration counter and the trace
of expanded (dequeued) nodes, recorded for the statements. -/
structure AState (Node : Type) where
  openL : List Node
  frontier : List Node
  explored : List Node
  gScore : List (Node × Int)
  fScore : List (Node × Int)
  cameFrom : List (Node × (Node × String))
  deltaTime : Nat
  iter : Nat
  expanded : List Node

/-- Child processing of Graph.js lines 149-184: skip explored
children; compute tentative g and f; enqueue unseen children (adding
them to the frontier and setting fScore before the enqueue); skip
frontier children whose tentative g is not better; record cameFrom and
gScore for enqueued or improved children. -/
def processEdge {Node : Type} [DecidableEq Node] (heur : Node → Int)
    (current : Node) (s : AState Node) (e : SEdge Node) : AState Node :=
  let child := e.to
  if child ∈ s.explored then s
  else
    let tempG := e.cost + (alookup s.gScore current).getD 0
    let tempF := tempG + heur child
    if child ∉ s.frontier then
      { s with frontier := child :: s.frontier,
               fScore := aset s.fScore child tempF,
               openL := s.openL ++ [child],
               cameFrom := aset s.cameFrom child (current, e.action),
               gScore := aset s.gScore child tempG }
    else if tempG ≥ (alookup s.gScore child).getD 0 then s
    else
      { s with fScore := aset s.fScore child tempF,
               cameFrom := aset s.cameFrom child (current, e.action),
               gScore := aset s.gScore child tempG }

/-- Path reconstruction loop of Graph.js lines 129-136, walking
cameFrom back from the goal, prepending each predecessor and action.
The fuel bounds the walk (the source loops while a cameFrom entry
exists; one entry is consumed per step, so cameFrom.length + 1 steps
suffice on the acyclic maps the search builds). -/
def reconstructAux {Node : Type} [DecidableEq Node]
    (cameFrom : List (Node × (Node × String))) :
    Nat → Node → List Node → List String → List Node × List String
  | 0, _, path, actions => (path, actions)
  | fuel + 1, node, path, actions =>
    match alookup cameFrom node with
    | none => (path, actions)
    | some (p, a) => reconstructAux cameFrom fuel p (p :: path) (a :: actions)

/-- Successful result of Graph.js lines 120-142: the reconstructed
path and actions with the goal node's gScore as cost. -/
def reconstruct {Node : Type} [DecidableEq Node]
    (cameFrom : List (Node × (Node × String))) (current : Node)
    (g : Int) : SearchResult Node :=
  let pa := reconstructAux cameFrom (cameFrom.length + 1) current [] []
  ⟨pa.1, g, pa.2⟩

/-- One iteration of the aStarSearch while loop (Graph.js lines
110-187): dequeue the minimal-f node, move it from the frontier to
explored and record it in the trace; on goal, reconstruct and break
(Sum.inl); otherwise process every outgoing edge and sample the clock
into deltaTime (Sum.inr).  The clock is the ambient ticks function:
ticks k is Date.now() - startTime as read at the end of iteration k. -/
def aStarStep {Node : Type} [DecidableEq Node]
    (graph : Node → List (SEdge Node)) (goalfn : Node → Bool)
    (heur : Node → Int) (ticks : Nat → Nat) (s : AState Node) :
    Sum (AState Node × SearchResult Node) (AState Node) :=
  match popMinF s.fScore s.openL with
  | none => Sum.inl (s, ⟨[], 0, []⟩)
  | some (current, rest) =>
    let s1 : AState Node :=
      { s with openL := rest,
               frontier := s.frontier.erase current,
               explored := current :: s.explored,
               expanded := s.expanded ++ [current] }
    if goalfn current then
      Sum.inl (s1, reconstruct s1.cameFrom current
        ((alookup s1.gScore current).getD 0))
    else
      let s2 := (graph current).foldl (processEdge heur current) s1
      Sum.inr { s2 with deltaTime := ticks s2.iter, iter := s2.iter + 1 }

/-- The while loop of Graph.js line 110: continue while the open list
is non-empty and deltaTime * 0.001 < timeout (exactly deltaTime <
1000 * timeout over the integers; the float product differs only
within rounding of 0.001).  The result variable is written only by the
goal break, so both the guard exit and the fuel cutoff return the
initial empty result. -/
def aStarLoop {Node : Type} [DecidableEq Node]
    (graph : Node → List (SEdge Node)) (goalfn : Node → Bool)
    (heur : Node → Int) (timeout : Nat) (ticks : Nat → Nat) :
    Nat → AState Node → AState Node × SearchResult Node
  | 0, s => (s, ⟨[], 0, []⟩)
  | fuel + 1, s =>
    if (!s.openL.isEmpty && decide (s.deltaTime < 1000 * timeout)) = true then
      match aStarStep graph goalfn heur ticks s with
      | Sum.inl r => r
      | Sum.inr s' => aStarLoop graph goalfn heur timeout ticks fuel s'
    else (s, ⟨[], 0, []⟩)

/-- aStarSearch from Graph.js lines 59-190: the start node is enqueued
with gScore 0 and fScore heuristics(start) (and without a frontier
entry); the loop then runs.  Returns the final bookkeeping state
together with the SearchResult the source returns. -/
def aStarSearch {Node : Type} [DecidableEq Node]
    (graph : Node → List (SEdge Node)) (goalfn : Node → Bool)
    (heur : Node → Int) (timeout : Nat) (ticks : Nat → Nat)
    (fuel : Nat) (start : Node) : AState Node × SearchResult Node :=
  aStarLoop graph goalfn heur timeout ticks fuel
    { openL := [start], frontier := [], explored := [],
      gScore := [(start, 0)], fScore := [(start, heur start)],
      cameFrom := [], deltaTime := 0, iter := 0, expanded := [] }

/-- Loop invariant of the search bookkeeping: the trace of expanded
nodes has no duplicates, the open list has no duplicates, open nodes
are never explored, expanded nodes are recorded as explored, every
open node is in the frontier (except before the first expansion, when
the start node sits in the open list without a frontier entry), and
before the first expansion the open list has at most the start
node. -/
def AInv {Node : Type} [DecidableEq Node] (s : AState Node) : Prop :=
  s.expanded.Nodup ∧ s.openL.Nodup ∧
  (∀ n ∈ s.openL, n ∉ s.explored) ∧
  (∀ n ∈ s.expanded, n ∈ s.explored) ∧
  (∀ n ∈ s.openL, n ∈ s.frontier ∨ s.explored = []) ∧
  (s.explored = [] → s.openL.length ≤ 1)

/-- Message table msg of Planner.ts lines 266-271 (the lookup of an
action outside the table is undefined; our sources only emit the four
letters). -/
def msg (action : String) : String :=
  match action with
  | "l" => "Moving left"
  | "r" => "Moving right"
  | "p" => "Picking up object"
  | "d" => "Dropping object"
  | _ => "undefined"

/-- getPlan from Planner.ts lines 279-290: interleaves a message
before every run of equal actions. -/
def getPlanAux (previous : Option String) (actions : List String) :
    List String :=
  match actions with
  | [] => []
  | a :: rest =>
    (if previous == some a then [a] else [msg a, a]) ++ getPlanAux (some a) rest

/-- Entry point of getPlan: previous starts undefined. -/
def getPlan (actions : List String) : List String :=
  getPlanAux none actions

/-- Empty-plan replacement of Planner.plan lines 38-41: a plan of
length 0 becomes the single message "That is already true!". -/
def planOrAlreadyTrue (plan : List String) : List String :=
  if plan.length = 0 then ["That is already true!"] else plan

/-- planInterpretation from Planner.ts lines 84-264: build the world
graph, filter undefined entries out of the stacks (the elements are
strings here, so the filter keeps everything), run aStarSearch with
the goal and heuristic closures and timeout 100, and render the
actions.  The clock and fuel are the ambient parameters of the
embedding. -/
def planInterpretation (interpretation : DNFFormula)
    (objects : String → ParserObject) (stateStacks : List Stack)
    (stateHolding : Option String) (stateArm : Int)
    (ticks : Nat → Nat) (fuel : Nat) : List String :=
  let filtered := stateStacks.map (fun s => s.filter (fun _ => true))
  let startNode : WorldNode := ⟨filtered, stateHolding, stateArm⟩
  let result := (aStarSearch (outgoingEdges objects) (goal interpretation)
    (heuristicP interpretation) 100 ticks fuel startNode).2
  getPlan result.actions

/-- C7: for all object descriptors A and B, the physical-laws predicate
satisfies passLaws(A, B, false) == passLaws(B, A, true): the false
polarity swaps the two arguments and then evaluates exactly the
polarity-true body. -/
theorem passLaws_polarity_swap (A B : ParserObject) :
    passLaws A B false = passLaws B A true := rfl

/-- C8 counterexample: the claim says an object of unknown size always
passes the size check for every supporter size, but placing an
unknown-size brick on a large table is rejected by passLaws, while the
same placement on an unknown-size table is accepted; the only varying
input is the supporter size, so the rejection is on size grounds and
the claim is false. -/
theorem passLaws_unknown_size_rejected :
    passLaws brickUnknown tableLarge true = false ∧
    passLaws brickUnknown tableUnknown true = true := by
  constructor <;> rfl

/-- C8 amended: sizes are compared through the SIZE enum ranking
small(0) < large(1) < undefined(2); a placement is rejected on size
grounds whenever the supported object's rank is strictly greater than
the supporter's, so an unknown-size object passes the size check only
when the supporter's size is also unknown. -/
theorem passLaws_size_ranking (obj locObj : ParserObject)
    (h : getSize locObj.size < getSize obj.size) :
    passLaws obj locObj true = false := by
  have hlte : lte obj.size locObj.size = false := by
    simp [lte, Nat.not_le.mpr h]
  unfold passLaws
  simp only [Bool.not_true, cond_false]
  by_cases hb : locObj.form == FORM.ball <;> simp [hb, hlte]

/-- Witness for C8 amended: instantiated at the unknown-size brick on
the large table. -/
theorem passLaws_size_ranking_witness :
    getSize tableLarge.size < getSize brickUnknown.size ∧
    passLaws brickUnknown tableLarge true = false :=
  ⟨by decide, passLaws_size_ranking brickUnknown tableLarge (by decide)⟩

/-- C2 failing input: from a node that is not holding an object and
whose arm column is empty, outgoingEdges nevertheless produces a pick
edge (the source checks only `!node.holding`, never the emptiness of
the column), whose target has holding undefined and the world
unchanged; the claim - and the executor TextWorld.pick, which throws
"Stack is empty!" here - require no pick edge from this node. -/
theorem outgoingEdges_pick_from_empty_column :
    (emptyColNode.stacks.getD emptyColNode.arm.toNat []).length = 0 ∧
    outgoingEdges objA emptyColNode =
      [⟨emptyColNode, emptyColNode, 1, "p"⟩] := by
  constructor <;> rfl

/-- Counting occurrences across a flattened list-of-lists after
updating one position: the update trades the old column for the new
one. -/
theorem count_flatten_set (l : List (List String)) (i : Nat)
    (hi : i < l.length) (s' : List String) (x : String) :
    ((l.set i s').flatten.count x) + (l.getD i []).count x =
      l.flatten.count x + s'.count x := by
  induction l generalizing i with
  | nil => simp at hi
  | cons hd tl ih =>
    cases i with
    | zero =>
      simp only [List.set_cons_zero, List.flatten_cons, List.count_append,
        List.getD_cons_zero]
      omega
    | succ j =>
      simp only [List.set_cons_succ, List.flatten_cons, List.count_append,
        List.getD_cons_succ]
      have := ih j (by simpa using hi)
      omega

/-- Occurrence counts are unchanged by pickup: the top of the arm
column moves to holding (or nothing happens when the column is
empty). -/
theorem count_allIds_pickup (node : WorldNode) (hhold : node.holding = none)
    (h0 : 0 ≤ node.arm) (hlen : node.arm < (node.stacks.length : Int))
    (x : String) :
    (allIds (pickup node)).count x = (allIds node).count x := by
  have hi : node.arm.toNat < node.stacks.length := by omega
  simp only [allIds, pickup, hhold, Option.toList_none, List.append_nil,
    List.count_append]
  rcases List.eq_nil_or_concat (node.stacks.getD node.arm.toNat [])
    with hnil | ⟨t, a, hcat⟩
  · have hcfs := count_flatten_set node.stacks node.arm.toNat hi [] x
    rw [hnil] at hcfs ⊢
    simp only [List.getLast?_nil, Option.toList_none, List.count_nil,
      List.dropLast_nil, ite_self] at hcfs ⊢
    omega
  · rw [List.concat_eq_append] at hcat
    have hcfs := count_flatten_set node.stacks node.arm.toNat hi t x
    rw [hcat] at hcfs ⊢
    rw [if_pos (by simp : (t ++ [a]).length > 0)]
    simp only [List.dropLast_concat, List.getLast?_concat, Option.toList_some]
    simp only [List.count_append] at hcfs
    omega

/-- Occurrence counts are unchanged by drop when an object is held:
the held object moves onto the arm column. -/
theorem count_allIds_drop (node : WorldNode) (h : String)
    (hhold : node.holding = some h)
    (h0 : 0 ≤ node.arm) (hlen : node.arm < (node.stacks.length : Int))
    (x : String) :
    (allIds (drop node)).count x = (allIds node).count x := by
  have hi : node.arm.toNat < node.stacks.length := by omega
  have hcfs := count_flatten_set node.stacks node.arm.toNat hi
    (node.stacks.getD node.arm.toNat [] ++ node.holding.toList) x
  simp only [allIds, drop, hhold, Option.toList_some, Option.toList_none,
    List.count_append, List.count_nil] at hcfs ⊢
  omega

/-- Case analysis for membership in the outgoing edge list: an edge is
the pick edge (and then holding is none), the drop edge (and then
holding is some), the left edge or the right edge. -/
theorem mem_outgoingEdges_cases (objects : String → ParserObject)
    (node : WorldNode) (e : SEdge WorldNode)
    (he : e ∈ outgoingEdges objects node) :
    (node.holding = none ∧ e = getOutgoing node pickup "p") ∨
    ((∃ h, node.holding = some h) ∧ e = getOutgoing node drop "d") ∨
    e = getOutgoing node goLeft "l" ∨ e = getOutgoing node goRight "r" := by
  simp only [outgoingEdges, List.mem_append] at he
  rcases he with ((h1 | h2) | h3) | h4
  · left
    split at h1
    · next hc => exact ⟨Option.isNone_iff_eq_none.mp hc, List.mem_singleton.mp h1⟩
    · simp at h1
  · right; left
    rcases hh : node.holding with _ | h
    · simp only [hh] at h2; simp at h2
    · simp only [hh] at h2
      refine ⟨⟨h, rfl⟩, ?_⟩
      split at h2
      · exact List.mem_singleton.mp h2
      · split at h2
        · exact List.mem_singleton.mp h2
        · simp at h2
  · right; right; left
    split at h3
    · exact List.mem_singleton.mp h3
    · simp at h3
  · right; right; right
    split at h4
    · exact List.mem_singleton.mp h4
    · simp at h4

/-- C4: from any world node satisfying the unique-placement invariant
(and with the arm inside the stacks, as the data model requires),
every successor produced by outgoingEdges satisfies the invariant
again: pick moves the top of the arm column to holding, drop moves the
held object onto the arm column, and the moves leave the other columns
untouched. -/
theorem outgoingEdges_preserves_unique_placement
    (objects : String → ParserObject) (node : WorldNode)
    (hU : UniquePlacement node)
    (h0 : 0 ≤ node.arm) (hlen : node.arm < (node.stacks.length : Int)) :
    ∀ e ∈ outgoingEdges objects node, UniquePlacement e.to := by
  intro e he
  have hcount : ∀ x, (allIds e.to).count x = (allIds node).count x := by
    rcases mem_outgoingEdges_cases objects node e he with
      ⟨hn, rfl⟩ | ⟨⟨h, hh⟩, rfl⟩ | rfl | rfl
    · exact count_allIds_pickup node hn h0 hlen
    · exact count_allIds_drop node h hh h0 hlen
    · intro x; rfl
    · intro x; rfl
  have := List.nodup_iff_count_le_one.mp hU
  exact List.nodup_iff_count_le_one.mpr fun x => (hcount x) ▸ this x

/-- Witness for C4 at a concrete two-column world. -/
theorem outgoingEdges_preserves_unique_placement_witness :
    (UniquePlacement ⟨[["a"], ["b"]], none, 0⟩ ∧
      (0 : Int) ≤ (1 : Int) ∧ (0 : Int) < ((2 : Nat) : Int)) ∧
    ∀ e ∈ outgoingEdges objA ⟨[["a"], ["b"]], none, 0⟩, UniquePlacement e.to :=
  ⟨⟨by decide, by decide, by decide⟩,
    outgoingEdges_preserves_unique_placement objA ⟨[["a"], ["b"]], none, 0⟩
      (by decide) (by decide) (by decide)⟩

/-- C10: all four actions preserve the number of columns; goLeft and
goRight change only the arm (by one step) and leave stacks and holding
unchanged; pickup and drop leave the arm unchanged and leave every
column other than the arm's unchanged. -/
theorem action_frame_conditions (node : WorldNode) (j : Nat)
    (h0 : 0 ≤ node.arm) (hj : j ≠ node.arm.toNat) :
    (goLeft node).stacks = node.stacks ∧ (goLeft node).holding = node.holding ∧
    (goLeft node).arm = node.arm - 1 ∧
    (goRight node).stacks = node.stacks ∧
    (goRight node).holding = node.holding ∧
    (goRight node).arm = node.arm + 1 ∧
    (pickup node).arm = node.arm ∧ (drop node).arm = node.arm ∧
    (pickup node).stacks.length = node.stacks.length ∧
    (drop node).stacks.length = node.stacks.length ∧
    (goLeft node).stacks.length = node.stacks.length ∧
    (goRight node).stacks.length = node.stacks.length ∧
    (pickup node).stacks.get? j = node.stacks.get? j ∧
    (drop node).stacks.get? j = node.stacks.get? j := by
  refine ⟨rfl, rfl, rfl, rfl, rfl, rfl, rfl, rfl, ?_, ?_, rfl, rfl, ?_, ?_⟩
  · simp [pickup]
  · simp [drop]
  · simp [pickup, List.getElem?_set_ne (fun h => hj h.symm)]
  · simp [drop, List.getElem?_set_ne (fun h => hj h.symm)]

/-- Witness for C10 at a concrete node and off-arm column index. -/
theorem action_frame_conditions_witness :
    ((0 : Int) ≤ (0 : Int) ∧ (1 : Nat) ≠ (0 : Nat)) ∧
    ((goLeft ⟨[["a"], ["b"]], some "c", 0⟩).stacks = [["a"], ["b"]] ∧
      (goLeft ⟨[["a"], ["b"]], some "c", 0⟩).holding = some "c" ∧
      (goLeft ⟨[["a"], ["b"]], some "c", 0⟩).arm = 0 - 1 ∧
      (goRight ⟨[["a"], ["b"]], some "c", 0⟩).stacks = [["a"], ["b"]] ∧
      (goRight ⟨[["a"], ["b"]], some "c", 0⟩).holding = some "c" ∧
      (goRight ⟨[["a"], ["b"]], some "c", 0⟩).arm = 0 + 1 ∧
      (pickup ⟨[["a"], ["b"]], some "c", 0⟩).arm = 0 ∧
      (drop ⟨[["a"], ["b"]], some "c", 0⟩).arm = 0 ∧
      (pickup ⟨[["a"], ["b"]], some "c", 0⟩).stacks.length = 2 ∧
      (drop ⟨[["a"], ["b"]], some "c", 0⟩).stacks.length = 2 ∧
      (goLeft ⟨[["a"], ["b"]], some "c", 0⟩).stacks.length = 2 ∧
      (goRight ⟨[["a"], ["b"]], some "c", 0⟩).stacks.length = 2 ∧
      (pickup ⟨[["a"], ["b"]], some "c", 0⟩).stacks.get? 1 = some ["b"] ∧
      (drop ⟨[["a"], ["b"]], some "c", 0⟩).stacks.get? 1 = some ["b"]) := by
  constructor
  · exact ⟨le_refl 0, by decide⟩
  · have := action_frame_conditions ⟨[["a"], ["b"]], some "c", 0⟩ 1
      (by decide) (by decide)
    simpa using this

/-- C1 failing input: for the goal [[holding(a)]] and a node that is
holding "a", the DNF semantics of the spec is satisfied, but the
planner's goal predicate returns false: RELATION.holding is undefined
(the RELATION table has no holding entry), so the holding case never
matches, the literal is looked up in the columns, where a held object
never occurs, and no relation case fires.  The claimed equivalence -
and in particular the claimed holding semantics - both fail here. -/
theorem goal_holding_code_bug :
    goal [[⟨true, "holding", ["a"]⟩]] ⟨[[]], some "a", 0⟩ = false ∧
    dnfGoalSpec [[⟨true, "holding", ["a"]⟩]] ⟨[[]], some "a", 0⟩ = true := by
  constructor <;> rfl

/-- Specification of findIdx? on success, phrased through getD: the
returned absolute index is past the start, in bounds, and the element
there satisfies the predicate. -/
theorem findIdx?_some_getD {α : Type} (d : α) (p : α → Bool) :
    ∀ (l : List α) (s i : Nat), List.findIdx? p l s = some i →
      s ≤ i ∧ i - s < l.length ∧ p (l.getD (i - s) d) = true := by
  intro l
  induction l with
  | nil => intro s i h; rw [List.findIdx?_nil] at h; exact absurd h (by simp)
  | cons x xs ih =>
    intro s i h
    rw [List.findIdx?_cons] at h
    by_cases hp : p x = true
    · rw [if_pos hp] at h
      obtain rfl : s = i := by simpa using h
      simpa [Nat.sub_self] using hp
    · rw [if_neg hp] at h
      obtain ⟨hs, hlt, hpd⟩ := ih (s + 1) i h
      refine ⟨by omega, by simp; omega, ?_⟩
      have : i - s = (i - (s + 1)) + 1 := by omega
      rw [this, List.getD_cons_succ]
      exact hpd

/-- A satisfied predicate somewhere in the list makes findIdx?
succeed. -/
theorem exists_findIdx?_some {α : Type} (p : α → Bool) :
    ∀ (l : List α) (s : Nat), (∃ x ∈ l, p x = true) →
      ∃ i, List.findIdx? p l s = some i := by
  intro l
  induction l with
  | nil => intro s h; simp at h
  | cons x xs ih =>
    intro s h
    rw [List.findIdx?_cons]
    by_cases hp : p x = true
    · exact ⟨s, by rw [if_pos hp]⟩
    · rw [if_neg hp]
      rcases h with ⟨y, hy, hpy⟩
      rcases List.mem_cons.mp hy with rfl | hy'
      · exact absurd hpy hp
      · exact ih (s + 1) ⟨y, hy', hpy⟩

/-- posInStack is -1 exactly on the stacks that do not contain the
object: the test pos != -1 coincides with contains. -/
theorem posInStack_ne_neg1 (s : List String) (a : String) :
    (posInStack s a != -1) = s.contains a := by
  unfold posInStack
  cases hf : List.findIdx? (fun o => o == a) s with
  | none =>
    have hall := List.findIdx?_eq_none_iff.mp hf
    have hnm : a ∉ s := fun hm => by have := hall a hm; simp at this
    simp [List.contains, hnm]
  | some i =>
    obtain ⟨-, hlt, hpd⟩ := findIdx?_some_getD "" (fun o => o == a) s 0 i hf
    simp only [Nat.sub_zero] at hlt hpd
    have hmem : a ∈ s := by
      have : s.getD i "" = a := by simpa using hpd
      rw [← this]
      rw [List.getD_eq_getElem?_getD, List.getElem?_eq_getElem hlt]
      exact List.getElem_mem hlt
    have h1 : ((i : Int) != -1) = true := by
      rw [bne_iff_ne]
      omega
    simp [h1, List.contains, hmem]

/-- Contributions of the claimed formula are at least 1 whenever the
primary object is held or placed. -/
theorem claimContributionStr_ge_one (node : WorldNode) (prim : String)
    (hp : node.holding = some prim ∨ ∃ s ∈ node.stacks, prim ∈ s) :
    1 ≤ claimContributionStr node prim := by
  unfold claimContributionStr
  by_cases hh : (node.holding == some prim) = true
  · simp [hh]
  · rw [if_neg (by simpa using hh)]
    rcases hp with hhold | ⟨s, hs, hmem⟩
    · exact absurd (by simp [hhold]) hh
    · obtain ⟨c, hc⟩ := exists_findIdx?_some (fun t => t.contains prim)
        node.stacks 0 ⟨s, hs, by simp [List.contains, hmem]⟩
      simp only [hc]
      obtain ⟨-, hclt, hcd⟩ :=
        findIdx?_some_getD [] (fun t => t.contains prim) node.stacks 0 c hc
      simp only [Nat.sub_zero] at hclt hcd
      have hmem' : prim ∈ node.stacks.getD c [] := by
        simpa [List.contains] using hcd
      obtain ⟨r, hr⟩ := exists_findIdx?_some (fun o => o == prim)
        (node.stacks.getD c []) 0 ⟨prim, hmem', by simp⟩
      simp only [hr]
      obtain ⟨-, hrlt, -⟩ :=
        findIdx?_some_getD "" (fun o => o == prim) (node.stacks.getD c []) 0 r hr
      simp only [Nat.sub_zero] at hrlt
      have habs : (0 : Int) ≤ ((node.arm - (c : Int)).natAbs : Int) :=
        Int.natCast_nonneg _
      have hlen : (r : Int) < ((node.stacks.getD c []).length : Int) := by
        exact_mod_cast hrlt
      simp only [Option.getD_some]
      omega

/-- The conditional minimum update of both heuristics is the
minimum. -/
theorem update_min (h c : Int) : (if c < h then c else h) = min h c := by
  rw [Int.min_def]
  by_cases hc : c < h <;> by_cases hh : h ≤ c <;> simp [hc, hh] <;> omega

/-- Folding min over a list of elements all at least the seed leaves
the seed. -/
theorem foldl_min_all_ge (a : Int) :
    ∀ (l : List Int), (∀ x ∈ l, a ≤ x) → l.foldl min a = a := by
  intro l
  induction l with
  | nil => intro; rfl
  | cons x xs ih =>
    intro h
    rw [List.foldl_cons, min_eq_left (h x (List.mem_cons_self x xs))]
    exact ih fun y hy => h y (List.mem_cons_of_mem x hy)

/-- Fresh cache computation of the part_005 heuristic: when the
primary object is placed (and not held), h5Find locates the first
column containing it and the first row inside that column, exactly the
data of the claimed contribution. -/
theorem h5_fresh_eq_claim (node : WorldNode) (prim : String)
    (hnh : (node.holding == some prim) = false)
    (hp : ∃ s ∈ node.stacks, prim ∈ s) (stPos : Int) (stIdx : Nat) :
    (((node.stacks.getD (h5Find node.stacks prim stPos stIdx).2 []).length : Int) -
        (h5Find node.stacks prim stPos stIdx).1 - 1) * 4 +
      ((node.arm - ((h5Find node.stacks prim stPos stIdx).2 : Int)).natAbs : Int) + 1 =
    claimContributionStr node prim := by
  have hpred : (fun s => posInStack s prim != -1) = (fun s => s.contains prim) :=
    funext fun s => posInStack_ne_neg1 s prim
  obtain ⟨s, hs, hmem⟩ := hp
  obtain ⟨c, hc⟩ := exists_findIdx?_some (fun t => t.contains prim)
    node.stacks 0 ⟨s, hs, by simp [List.contains, hmem]⟩
  obtain ⟨-, hclt, hcd⟩ :=
    findIdx?_some_getD [] (fun t => t.contains prim) node.stacks 0 c hc
  simp only [Nat.sub_zero] at hclt hcd
  have hmem' : prim ∈ node.stacks.getD c [] := by
    simpa [List.contains] using hcd
  obtain ⟨r, hr⟩ := exists_findIdx?_some (fun o => o == prim)
    (node.stacks.getD c []) 0 ⟨prim, hmem', by simp⟩
  have hfind : h5Find node.stacks prim stPos stIdx = ((r : Int), c) := by
    unfold h5Find
    rw [hpred]
    simp only [hc]
    unfold posInStack
    simp only [hr]
  rw [hfind]
  unfold claimContributionStr
  rw [if_neg (by simpa using hnh)]
  simp only [hc, hr]
  simp

/-- One literal of the part_005 heuristic against the claimed
contribution: either the break fires (the node holds a fresh primary
object, whose contribution is 1), or the state advances with h lowered
to the minimum with the claimed contribution and a sound cache. -/
theorem h5Literal_spec (node : WorldNode) (lit : Literal) (st : H5St)
    (hc : CacheOK node st) (hh1 : 1 ≤ st.h)
    (ha0 : lit.args.getD 0 "" ≠ "")
    (hpres : node.holding = some (lit.args.getD 0 "") ∨
      ∃ s ∈ node.stacks, (lit.args.getD 0 "") ∈ s) :
    (∃ st', h5Literal node lit st = Sum.inl st' ∧ st'.h = 1 ∧
      claimContribution node lit = 1) ∨
    (∃ st', h5Literal node lit st = Sum.inr st' ∧
      st'.h = min st.h (claimContribution node lit) ∧
      CacheOK node st' ∧ 1 ≤ st'.h) := by
  have hge1 : 1 ≤ claimContributionStr node (lit.args.getD 0 "") :=
    claimContributionStr_ge_one node _ hpres
  by_cases hcache : (st.obj == lit.args.getD 0 "") = true
  · -- cache hit
    right
    have hobj : st.obj = lit.args.getD 0 "" := by simpa using hcache
    rcases hc with hempty | ⟨hnh, hstored⟩
    · rw [hobj] at hempty
      exact absurd hempty ha0
    · have hstored' : st.objsAbove * 4 +
          ((node.arm - (st.stackIdx : Int)).natAbs : Int) + 1 =
          claimContribution node lit := by
        rw [claimContribution, ← hobj]
        exact hstored
      refine ⟨_, by simp only [h5Literal]; rw [if_pos hcache], ?_, ?_, ?_⟩
      · simp only [update_min]
        rw [hstored']
      · exact Or.inr ⟨hnh, hstored⟩
      · simp only [update_min]
        exact le_min hh1 (hstored' ▸ hge1)
  · -- cache miss
    by_cases hhold : (node.holding == some (lit.args.getD 0 "")) = true
    · left
      refine ⟨{ st with h := 1, obj := lit.args.getD 0 "" }, ?_, rfl, ?_⟩
      · simp only [h5Literal]
        rw [if_neg hcache, if_pos hhold]
      · unfold claimContribution claimContributionStr
        rw [if_pos hhold]
    · right
      have hpres' : ∃ s ∈ node.stacks, (lit.args.getD 0 "") ∈ s := by
        rcases hpres with hx | hx
        · exact absurd (by simp [hx]) hhold
        · exact hx
      have hfresh := h5_fresh_eq_claim node (lit.args.getD 0 "")
        (by simpa using hhold) hpres' st.pos st.stackIdx
      have hfresh' : (((node.stacks.getD (h5Find node.stacks
          (lit.args.getD 0 "") st.pos st.stackIdx).2 []).length : Int) -
            (h5Find node.stacks (lit.args.getD 0 "") st.pos st.stackIdx).1 - 1) * 4 +
          ((node.arm - ((h5Find node.stacks (lit.args.getD 0 "")
            st.pos st.stackIdx).2 : Int)).natAbs : Int) + 1 =
          claimContribution node lit := hfresh
      refine ⟨_, by simp only [h5Literal]; rw [if_neg hcache, if_neg hhold], ?_, ?_, ?_⟩
      · simp only [update_min]
        rw [hfresh']
      · exact Or.inr ⟨by simpa using hhold, hfresh⟩
      · simp only [update_min]
        exact le_min hh1 (hfresh' ▸ hge1)

/-- Literal loop of the part_005 heuristic: with a sound cache and h
at least 1, the resulting h is the fold of min over the claimed
contributions of the conjunction (break included, since a break sets h
to 1, the least possible contribution). -/
theorem h5Conj_spec (node : WorldNode) :
    ∀ (lits : List Literal) (st : H5St), CacheOK node st → 1 ≤ st.h →
    (∀ lit ∈ lits, lit.args.getD 0 "" ≠ "" ∧
      (node.holding = some (lit.args.getD 0 "") ∨
        ∃ s ∈ node.stacks, (lit.args.getD 0 "") ∈ s)) →
    (h5Conj node lits st).h =
      (lits.map (claimContribution node)).foldl min st.h ∧
    1 ≤ (h5Conj node lits st).h := by
  intro lits
  induction lits with
  | nil => intro st _ hh1 _; exact ⟨rfl, hh1⟩
  | cons l rest ih =>
    intro st hc hh1 hall
    obtain ⟨ha0, hpres⟩ := hall l (List.mem_cons_self l rest)
    have hrest := fun lit hl => hall lit (List.mem_cons_of_mem l hl)
    rcases h5Literal_spec node l st hc hh1 ha0 hpres with
      ⟨st', heq, hh, hcl⟩ | ⟨st', heq, hh, hcok, hge⟩
    · -- break: remaining contributions are all at least 1
      have hrest_ge : ∀ x ∈ rest.map (claimContribution node), (1 : Int) ≤ x := by
        intro x hx
        obtain ⟨lit, hl, rfl⟩ := List.mem_map.mp hx
        exact claimContributionStr_ge_one node _ (hrest lit hl).2
      constructor
      · show (h5Conj node (l :: rest) st).h = _
        rw [List.map_cons, List.foldl_cons, hcl,
          min_eq_right hh1, foldl_min_all_ge 1 _ hrest_ge]
        simp only [h5Conj, heq]
        exact hh
      · simp only [h5Conj, heq]
        omega
    · -- continue
      obtain ⟨ih1, ih2⟩ := ih st' hcok hge hrest
      constructor
      · show (h5Conj node (l :: rest) st).h = _
        simp only [h5Conj, heq]
        rw [ih1, List.map_cons, List.foldl_cons, hh]
      · simp only [h5Conj, heq]
        exact ih2

/-- C9 amended, main equivalence: the part_005 heuristic equals the
claimed formula - the minimum over all literals of all conjunctions of
(1 when the primary object is held, otherwise objects-above times 4
plus the arm distance plus 1) - whenever every literal has a non-empty
primary argument that is held or placed in some column.  (The
heuristic in src/Planner.ts computes a different estimate; see the
counterexample.) -/
theorem heuristic5_eq_claim (interpretation : DNFFormula) (node : WorldNode)
    (hall : ∀ lit ∈ interpretation.flatten, lit.args.getD 0 "" ≠ "" ∧
      (node.holding = some (lit.args.getD 0 "") ∨
        ∃ s ∈ node.stacks, (lit.args.getD 0 "") ∈ s)) :
    heuristic5 interpretation node = claimHeuristic interpretation node := by
  unfold heuristic5 claimHeuristic
  have main : ∀ (conjs : DNFFormula) (st : H5St), 1 ≤ st.h →
      (∀ lit ∈ conjs.flatten, lit.args.getD 0 "" ≠ "" ∧
        (node.holding = some (lit.args.getD 0 "") ∨
          ∃ s ∈ node.stacks, (lit.args.getD 0 "") ∈ s)) →
      (conjs.foldl (fun st conj => h5Conj node conj { st with obj := "" }) st).h =
        (conjs.flatten.map (claimContribution node)).foldl min st.h := by
    intro conjs
    induction conjs with
    | nil => intro st _ _; rfl
    | cons c rest ih =>
      intro st hh1 hcall
      have hc : ∀ lit ∈ c, lit.args.getD 0 "" ≠ "" ∧
          (node.holding = some (lit.args.getD 0 "") ∨
            ∃ s ∈ node.stacks, (lit.args.getD 0 "") ∈ s) := by
        intro lit hl
        exact hcall lit (by simp [List.mem_flatten]; exact Or.inl hl)
      have hrest : ∀ lit ∈ rest.flatten, lit.args.getD 0 "" ≠ "" ∧
          (node.holding = some (lit.args.getD 0 "") ∨
            ∃ s ∈ node.stacks, (lit.args.getD 0 "") ∈ s) := by
        intro lit hl
        refine hcall lit ?_
        simp only [List.flatten_cons, List.mem_append]
        exact Or.inr hl
      obtain ⟨h1, h2⟩ := h5Conj_spec node c { st with obj := "" }
        (Or.inl rfl) hh1 hc
      rw [List.foldl_cons, List.flatten_cons, List.map_append,
        List.foldl_append, ih _ h2 hrest, h1]
  have hMAX : (1 : Int) ≤ MAX_VALUE := by unfold MAX_VALUE; norm_num
  exact main interpretation ⟨MAX_VALUE, "", 0, 0, 0⟩ hMAX hall

set_option maxRecDepth 4000 in
/-- Witness for C9 amended at a one-literal goal over a one-column
world. -/
theorem heuristic5_eq_claim_witness :
    (∀ lit ∈ ([[⟨true, "ontop", ["e", "floor"]⟩]] : DNFFormula).flatten,
      lit.args.getD 0 "" ≠ "" ∧
        ((⟨[["e"]], none, 0⟩ : WorldNode).holding = some (lit.args.getD 0 "") ∨
          ∃ s ∈ (⟨[["e"]], none, 0⟩ : WorldNode).stacks,
            (lit.args.getD 0 "") ∈ s)) ∧
    heuristic5 [[⟨true, "ontop", ["e", "floor"]⟩]] ⟨[["e"]], none, 0⟩ =
      claimHeuristic [[⟨true, "ontop", ["e", "floor"]⟩]] ⟨[["e"]], none, 0⟩ :=
  ⟨by decide, heuristic5_eq_claim _ _ (by decide)⟩

set_option maxRecDepth 4000 in
/-- C9 counterexample: on the goal [[holding(e)]] with "e" alone in
column 1 and the arm at column 0, the heuristic of src/Planner.ts
returns 1 (it overwrites the minimum with the plain arm distance
|objCol - arm| for a one-argument literal and has no obstruction
term), while the formula of the claim gives 0 * 4 + |0 - 1| + 1 = 2;
the claim does not describe the heuristic of src/Planner.ts. -/
theorem heuristicP_differs_from_claim :
    heuristicP [[⟨true, "holding", ["e"]⟩]] ⟨[[], ["e"]], none, 0⟩ = 1 ∧
    claimHeuristic [[⟨true, "holding", ["e"]⟩]] ⟨[[], ["e"]], none, 0⟩ = 2 := by
  constructor <;> decide

/-- Dequeueing from a non-empty open list always succeeds. -/
theorem popMinF_none {Node : Type} [DecidableEq Node]
    (fS : List (Node × Int)) (l : List Node) :
    popMinF fS l = none → l = [] := by
  cases l with
  | nil => intro _; rfl
  | cons n rest =>
    intro h
    simp only [popMinF] at h
    cases hrec : popMinF fS rest with
    | none =>
      simp only [hrec] at h
      exact absurd h (by simp)
    | some p =>
      obtain ⟨m, rest'⟩ := p
      simp only [hrec] at h
      split at h <;> simp at h

/-- The dequeued node together with the rest is a permutation of the
open list. -/
theorem popMinF_perm {Node : Type} [DecidableEq Node]
    (fS : List (Node × Int)) :
    ∀ (l : List Node) (c : Node) (rest : List Node),
      popMinF fS l = some (c, rest) → l.Perm (c :: rest) := by
  intro l
  induction l with
  | nil => intro c rest h; simp [popMinF] at h
  | cons n t ih =>
    intro c rest h
    simp only [popMinF] at h
    cases hrec : popMinF fS t with
    | none =>
      simp only [hrec, Option.some.injEq, Prod.mk.injEq] at h
      obtain ⟨rfl, rfl⟩ := h
      exact List.Perm.refl _
    | some p =>
      obtain ⟨m, rest'⟩ := p
      simp only [hrec] at h
      split at h
      · simp only [Option.some.injEq, Prod.mk.injEq] at h
        obtain ⟨rfl, rfl⟩ := h
        exact List.Perm.refl _
      · simp only [Option.some.injEq, Prod.mk.injEq] at h
        obtain ⟨rfl, rfl⟩ := h
        exact ((ih m rest' hrec).cons n).trans (List.Perm.swap m n rest')

/-- Child processing never touches the explored set, the expansion
trace, the iteration counter or the clock sample. -/
theorem processEdge_fields {Node : Type} [DecidableEq Node]
    (heur : Node → Int) (cur : Node) (s : AState Node) (e : SEdge Node) :
    (processEdge heur cur s e).explored = s.explored ∧
    (processEdge heur cur s e).expanded = s.expanded ∧
    (processEdge heur cur s e).iter = s.iter ∧
    (processEdge heur cur s e).deltaTime = s.deltaTime := by
  simp only [processEdge]
  split
  · exact ⟨rfl, rfl, rfl, rfl⟩
  · split
    · exact ⟨rfl, rfl, rfl, rfl⟩
    · split
      · exact ⟨rfl, rfl, rfl, rfl⟩
      · exact ⟨rfl, rfl, rfl, rfl⟩

/-- Child processing preserves the open-list invariants: distinct open
nodes, never explored, all in the frontier. -/
theorem processEdge_inv {Node : Type} [DecidableEq Node]
    (heur : Node → Int) (cur : Node) (s : AState Node) (e : SEdge Node)
    (h1 : s.openL.Nodup) (h2 : ∀ n ∈ s.openL, n ∉ s.explored)
    (h3 : ∀ n ∈ s.openL, n ∈ s.frontier) :
    (processEdge heur cur s e).openL.Nodup ∧
    (∀ n ∈ (processEdge heur cur s e).openL,
      n ∉ (processEdge heur cur s e).explored) ∧
    (∀ n ∈ (processEdge heur cur s e).openL,
      n ∈ (processEdge heur cur s e).frontier) := by
  simp only [processEdge]
  split
  · exact ⟨h1, h2, h3⟩
  · next hexp =>
    split
    · next hfr =>
      have hnotopen : e.to ∉ s.openL := fun hm => hfr (h3 _ hm)
      refine ⟨?_, ?_, ?_⟩
      · refine List.Nodup.append h1 (List.nodup_singleton _) ?_
        intro a ha hb
        rw [List.mem_singleton] at hb
        subst hb
        exact hnotopen ha
      · intro n hn
        rcases List.mem_append.mp hn with hn | hn
        · exact h2 n hn
        · rw [List.mem_singleton] at hn
          subst hn
          exact hexp
      · intro n hn
        rcases List.mem_append.mp hn with hn | hn
        · exact List.mem_cons_of_mem _ (h3 n hn)
        · rw [List.mem_singleton] at hn
          subst hn
          exact List.mem_cons_self _ _
    · split
      · exact ⟨h1, h2, h3⟩
      · exact ⟨h1, h2, h3⟩

/-- Edge-list folding never touches explored, trace, counter or
clock. -/
theorem foldl_processEdge_fields {Node : Type} [DecidableEq Node]
    (heur : Node → Int) (cur : Node) :
    ∀ (edges : List (SEdge Node)) (s : AState Node),
      (edges.foldl (processEdge heur cur) s).explored = s.explored ∧
      (edges.foldl (processEdge heur cur) s).expanded = s.expanded ∧
      (edges.foldl (processEdge heur cur) s).iter = s.iter ∧
      (edges.foldl (processEdge heur cur) s).deltaTime = s.deltaTime := by
  intro edges
  induction edges with
  | nil => intro s; exact ⟨rfl, rfl, rfl, rfl⟩
  | cons e rest ih =>
    intro s
    obtain ⟨ha, hb, hc, hd⟩ := ih (processEdge heur cur s e)
    obtain ⟨ha', hb', hc', hd'⟩ := processEdge_fields heur cur s e
    rw [List.foldl_cons]
    exact ⟨ha.trans ha', hb.trans hb', hc.trans hc', hd.trans hd'⟩

/-- Edge-list folding preserves the open-list invariants. -/
theorem foldl_processEdge_inv {Node : Type} [DecidableEq Node]
    (heur : Node → Int) (cur : Node) :
    ∀ (edges : List (SEdge Node)) (s : AState Node),
      s.openL.Nodup → (∀ n ∈ s.openL, n ∉ s.explored) →
      (∀ n ∈ s.openL, n ∈ s.frontier) →
      (edges.foldl (processEdge heur cur) s).openL.Nodup ∧
      (∀ n ∈ (edges.foldl (processEdge heur cur) s).openL,
        n ∉ (edges.foldl (processEdge heur cur) s).explored) ∧
      (∀ n ∈ (edges.foldl (processEdge heur cur) s).openL,
        n ∈ (edges.foldl (processEdge heur cur) s).frontier) := by
  intro edges
  induction edges with
  | nil => intro s h1 h2 h3; exact ⟨h1, h2, h3⟩
  | cons e rest ih =>
    intro s h1 h2 h3
    obtain ⟨g1, g2, g3⟩ := processEdge_inv heur cur s e h1 h2 h3
    rw [List.foldl_cons]
    exact ih (processEdge heur cur s e) g1 g2 g3

/-- One search iteration preserves the loop invariant, whether it
breaks (goal found or empty queue) or continues. -/
theorem aStarStep_inv {Node : Type} [DecidableEq Node]
    (graph : Node → List (SEdge Node)) (goalfn : Node → Bool)
    (heur : Node → Int) (ticks : Nat → Nat) (s : AState Node)
    (h : AInv s) :
    (∀ s' res, aStarStep graph goalfn heur ticks s = Sum.inl (s', res) →
      AInv s') ∧
    (∀ s', aStarStep graph goalfn heur ticks s = Sum.inr s' → AInv s') := by
  obtain ⟨hx, ho, hoe, hxe, hof, hel⟩ := h
  cases hpop : popMinF s.fScore s.openL with
  | none =>
    constructor
    · intro s' res heq
      simp only [aStarStep, hpop, Sum.inl.injEq, Prod.mk.injEq] at heq
      rw [← heq.1]
      exact ⟨hx, ho, hoe, hxe, hof, hel⟩
    · intro s' heq
      simp only [aStarStep, hpop] at heq
      exact Sum.noConfusion heq
  | some p =>
    obtain ⟨current, rest⟩ := p
    have hperm := popMinF_perm s.fScore s.openL current rest hpop
    have hcur_open : current ∈ s.openL :=
      hperm.mem_iff.mpr (List.mem_cons_self _ _)
    have hcur_rest : current ∉ rest := (List.nodup_cons.mp (hperm.nodup ho)).1
    have hrest_nd : rest.Nodup := (List.nodup_cons.mp (hperm.nodup ho)).2
    have hrest_sub : ∀ n ∈ rest, n ∈ s.openL := fun n hn =>
      hperm.mem_iff.mpr (List.mem_cons_of_mem _ hn)
    have hcur_nexp : current ∉ s.explored := hoe current hcur_open
    have hcur_nx : current ∉ s.expanded := fun hm => hcur_nexp (hxe current hm)
    have hS1 : AInv (⟨rest, s.frontier.erase current, current :: s.explored, s.gScore,
        s.fScore, s.cameFrom, s.deltaTime, s.iter,
        s.expanded ++ [current]⟩ : AState Node) := by
      refine ⟨?_, hrest_nd, ?_, ?_, ?_, ?_⟩
      · refine List.Nodup.append hx (List.nodup_singleton _) ?_
        intro a ha hb
        rw [List.mem_singleton] at hb
        subst hb
        exact hcur_nx ha
      · intro n hn
        have hne : n ≠ current := fun hE => hcur_rest (hE ▸ hn)
        intro hmem
        rcases List.mem_cons.mp hmem with hE | hmem'
        · exact hne hE
        · exact hoe n (hrest_sub n hn) hmem'
      · intro n hn
        rcases List.mem_append.mp hn with hn | hn
        · exact List.mem_cons_of_mem _ (hxe n hn)
        · rw [List.mem_singleton] at hn
          subst hn
          exact List.mem_cons_self _ _
      · intro n hn
        have hne : n ≠ current := fun hE => hcur_rest (hE ▸ hn)
        rcases hof n (hrest_sub n hn) with hf | hemp
        · exact Or.inl ((List.mem_erase_of_ne hne).mpr hf)
        · exfalso
          have hlen := hel hemp
          have hleq := hperm.length_eq
          simp only [List.length_cons] at hleq
          have h0 : rest.length = 0 := by omega
          rw [List.length_eq_zero] at h0
          exact absurd (h0 ▸ hn) (List.not_mem_nil n)
      · intro hexp'
        simp at hexp'
    have h3' : ∀ n ∈ rest, n ∈ s.frontier.erase current := by
      intro n hn
      rcases hS1.2.2.2.2.1 n hn with hf | habs
      · exact hf
      · exact absurd habs (by simp)
    constructor
    · intro s' res heq
      simp only [aStarStep, hpop] at heq
      split at heq
      · simp only [Sum.inl.injEq, Prod.mk.injEq] at heq
        rw [← heq.1]
        exact hS1
      · exact absurd heq (by simp)
    · intro s' heq
      simp only [aStarStep, hpop] at heq
      split at heq
      · exact absurd heq (by simp)
      · simp only [Sum.inr.injEq] at heq
        subst heq
        obtain ⟨g1, g2, g3⟩ := foldl_processEdge_inv heur current
          (graph current) _ hS1.2.1 hS1.2.2.1 h3'
        obtain ⟨e1, e2, e3, e4⟩ := foldl_processEdge_fields heur current
          (graph current) (⟨rest, s.frontier.erase current, current :: s.explored, s.gScore,
        s.fScore, s.cameFrom, s.deltaTime, s.iter,
        s.expanded ++ [current]⟩ : AState Node)
        refine ⟨?_, g1, g2, ?_, fun n hn => Or.inl (g3 n hn), ?_⟩
        · show (List.foldl (processEdge heur current) _ (graph current)).expanded.Nodup
          rw [e2]
          exact hS1.1
        · show ∀ n ∈ (List.foldl (processEdge heur current) _ (graph current)).expanded,
            n ∈ (List.foldl (processEdge heur current) _ (graph current)).explored
          rw [e2, e1]
          exact hS1.2.2.2.1
        · show (List.foldl (processEdge heur current) _ (graph current)).explored = [] → _
          rw [e1]
          intro habs
          simp at habs

/-- Characterization of a breaking iteration: either the open list was
empty (the state is unchanged and the result is the empty failure
value), or a goal node was dequeued, recorded in the trace, and the
trace grew by one. -/
theorem aStarStep_inl_spec {Node : Type} [DecidableEq Node]
    (graph : Node → List (SEdge Node)) (goalfn : Node → Bool)
    (heur : Node → Int) (ticks : Nat → Nat) (s : AState Node)
    (s' : AState Node) (res : SearchResult Node)
    (heq : aStarStep graph goalfn heur ticks s = Sum.inl (s', res)) :
    (s' = s ∧ res = ⟨[], 0, []⟩) ∨
    (∃ c, c ∈ s'.expanded ∧ goalfn c = true ∧
      s'.expanded.length = s.expanded.length + 1) := by
  cases hpop : popMinF s.fScore s.openL with
  | none =>
    simp only [aStarStep, hpop, Sum.inl.injEq, Prod.mk.injEq] at heq
    exact Or.inl ⟨heq.1.symm, heq.2.symm⟩
  | some p =>
    obtain ⟨current, rest⟩ := p
    simp only [aStarStep, hpop] at heq
    split at heq
    · next hgoal =>
      simp only [Sum.inl.injEq, Prod.mk.injEq] at heq
      refine Or.inr ⟨current, ?_, hgoal, ?_⟩
      · rw [← heq.1]
        exact List.mem_append.mpr (Or.inr (List.mem_singleton.mpr rfl))
      · rw [← heq.1]
        simp
    · exact absurd heq (by simp)

/-- Characterization of a continuing iteration: the trace grows by
exactly one, the iteration counter advances, and deltaTime is the
clock sample of the finished iteration. -/
theorem aStarStep_inr_spec {Node : Type} [DecidableEq Node]
    (graph : Node → List (SEdge Node)) (goalfn : Node → Bool)
    (heur : Node → Int) (ticks : Nat → Nat) (s : AState Node)
    (s' : AState Node)
    (heq : aStarStep graph goalfn heur ticks s = Sum.inr s') :
    s'.expanded.length = s.expanded.length + 1 ∧
    s'.iter = s.iter + 1 ∧ s'.deltaTime = ticks s.iter := by
  cases hpop : popMinF s.fScore s.openL with
  | none =>
    simp only [aStarStep, hpop] at heq
    exact Sum.noConfusion heq
  | some p =>
    obtain ⟨current, rest⟩ := p
    simp only [aStarStep, hpop] at heq
    split at heq
    · exact absurd heq (by simp)
    · simp only [Sum.inr.injEq] at heq
      subst heq
      obtain ⟨e1, e2, e3, e4⟩ := foldl_processEdge_fields heur current
        (graph current) (⟨rest, s.frontier.erase current,
          current :: s.explored, s.gScore, s.fScore, s.cameFrom,
          s.deltaTime, s.iter, s.expanded ++ [current]⟩ : AState Node)
      refine ⟨?_, ?_, ?_⟩
      · show (List.foldl (processEdge heur current) _ (graph current)).expanded.length = _
        rw [e2]
        simp
      · show (List.foldl (processEdge heur current) _ (graph current)).iter + 1 = _
        rw [e3]
      · show ticks (List.foldl (processEdge heur current) _ (graph current)).iter = _
        rw [e3]

/-- The search loop preserves the loop invariant down to its final
state. -/
theorem aStarLoop_inv {Node : Type} [DecidableEq Node]
    (graph : Node → List (SEdge Node)) (goalfn : Node → Bool)
    (heur : Node → Int) (timeout : Nat) (ticks : Nat → Nat) :
    ∀ (fuel : Nat) (s : AState Node), AInv s →
      AInv ((aStarLoop graph goalfn heur timeout ticks fuel s).1) := by
  intro fuel
  induction fuel with
  | zero => intro s h; exact h
  | succ n ih =>
    intro s h
    simp only [aStarLoop]
    split
    · cases hstep : aStarStep graph goalfn heur ticks s with
      | inl r =>
        obtain ⟨s', res⟩ := r
        simp only [hstep]
        exact (aStarStep_inv graph goalfn heur ticks s h).1 s' res hstep
      | inr s' =>
        simp only [hstep]
        exact ih s' ((aStarStep_inv graph goalfn heur ticks s h).2 s' hstep)
    · exact h

/-- When no expanded node satisfies the goal, the loop returns the
empty failure value (the result variable is only ever written by the
goal break). -/
theorem aStarLoop_fail {Node : Type} [DecidableEq Node]
    (graph : Node → List (SEdge Node)) (goalfn : Node → Bool)
    (heur : Node → Int) (timeout : Nat) (ticks : Nat → Nat) :
    ∀ (fuel : Nat) (s : AState Node),
      (∀ n ∈ ((aStarLoop graph goalfn heur timeout ticks fuel s).1).expanded,
        goalfn n = false) →
      (aStarLoop graph goalfn heur timeout ticks fuel s).2 = ⟨[], 0, []⟩ := by
  intro fuel
  induction fuel with
  | zero => intro s _; rfl
  | succ n ih =>
    intro s hng
    simp only [aStarLoop] at hng ⊢
    by_cases hguard :
        (!s.openL.isEmpty && decide (s.deltaTime < 1000 * timeout)) = true
    · rw [if_pos hguard] at hng ⊢
      cases hstep : aStarStep graph goalfn heur ticks s with
      | inl r =>
        obtain ⟨s', res⟩ := r
        simp only [hstep] at hng ⊢
        rcases aStarStep_inl_spec graph goalfn heur ticks s s' res hstep with
          ⟨-, hres⟩ | ⟨c, hcmem, hgoal, -⟩
        · exact hres
        · have := hng c hcmem
          rw [hgoal] at this
          exact absurd this (by simp)
      | inr s' =>
        simp only [hstep] at hng ⊢
        exact ih s' hng
    · rw [if_neg hguard] at hng ⊢

/-- Once the clock has passed the deadline (from sample N on), the
loop performs at most one further expansion: every iteration rereads
deltaTime and the guard deltaTime * 0.001 < timeout stops the loop. -/
theorem aStarLoop_iter_bound {Node : Type} [DecidableEq Node]
    (graph : Node → List (SEdge Node)) (goalfn : Node → Bool)
    (heur : Node → Int) (timeout : Nat) (ticks : Nat → Nat) (N : Nat)
    (hT : ∀ i, N ≤ i → 1000 * timeout ≤ ticks i) :
    ∀ (fuel : Nat) (s : AState Node), s.iter = s.expanded.length →
      (s.iter ≠ 0 → s.deltaTime = ticks (s.iter - 1)) →
      s.expanded.length ≤ N + 1 →
      ((aStarLoop graph goalfn heur timeout ticks fuel s).1).expanded.length ≤
        N + 1 := by
  intro fuel
  induction fuel with
  | zero => intro s _ _ hle; exact hle
  | succ n ih =>
    intro s hiter hdt hle
    simp only [aStarLoop]
    by_cases hguard :
        (!s.openL.isEmpty && decide (s.deltaTime < 1000 * timeout)) = true
    · rw [if_pos hguard]
      have hdt_lt : s.deltaTime < 1000 * timeout := by
        have h2 := hguard
        simp only [Bool.and_eq_true, decide_eq_true_eq] at h2
        exact h2.2
      have hsle : s.iter ≤ N := by
        by_contra hgt
        push_neg at hgt
        have hne : s.iter ≠ 0 := by omega
        have hdtv := hdt hne
        have := hT (s.iter - 1) (by omega)
        omega
      cases hstep : aStarStep graph goalfn heur ticks s with
      | inl r =>
        obtain ⟨s', res⟩ := r
        simp only [hstep]
        rcases aStarStep_inl_spec graph goalfn heur ticks s s' res hstep with
          ⟨rfl, -⟩ | ⟨c, -, -, hlen⟩
        · exact hle
        · rw [hlen]
          omega
      | inr s' =>
        simp only [hstep]
        obtain ⟨hl1, hl2, hl3⟩ := aStarStep_inr_spec graph goalfn heur ticks s s' hstep
        refine ih s' (by omega) ?_ (by omega)
        intro _
        rw [hl3, hl2]
        simp
    · rw [if_neg hguard]
      exact hle

/-- C5: in a run of aStarSearch, no node is ever expanded twice - the
trace of dequeued nodes, compared by the structural equality that the
JSON.stringify keying realizes, has no duplicates: a dequeued node is
put in the explored dictionary before its children are examined, and
explored nodes are never re-enqueued. -/
theorem aStarSearch_no_reexpansion {Node : Type} [DecidableEq Node]
    (graph : Node → List (SEdge Node)) (goalfn : Node → Bool)
    (heur : Node → Int) (timeout : Nat) (ticks : Nat → Nat)
    (fuel : Nat) (start : Node) :
    ((aStarSearch graph goalfn heur timeout ticks fuel start).1).expanded.Nodup := by
  have h0 : AInv (⟨[start], [], [], [(start, 0)], [(start, heur start)],
      [], 0, 0, []⟩ : AState Node) := by
    refine ⟨List.nodup_nil, List.nodup_singleton _, ?_, ?_, ?_, ?_⟩
    · intro n _
      simp
    · intro n hn
      simp at hn
    · intro n _
      exact Or.inr rfl
    · intro _
      simp
  exact (aStarLoop_inv graph goalfn heur timeout ticks fuel _ h0).1

/-- C3: the search polls the wall clock at every loop iteration, so
once the elapsed time reaches the timeout (in seconds; the guard
compares deltaTime ms * 0.001 against it), at most one more node is
expanded - however much of the open set remains - and, as long as no
expanded node satisfied the goal, the returned value is the failure
result with empty path, empty actions and cost 0. -/
theorem aStarSearch_timeout_poll {Node : Type} [DecidableEq Node]
    (graph : Node → List (SEdge Node)) (goalfn : Node → Bool)
    (heur : Node → Int) (timeout : Nat) (ticks : Nat → Nat)
    (fuel : Nat) (start : Node) (N : Nat)
    (hT : ∀ i, N ≤ i → 1000 * timeout ≤ ticks i) :
    ((aStarSearch graph goalfn heur timeout ticks fuel start).1).expanded.length ≤
      N + 1 ∧
    ((∀ n ∈ ((aStarSearch graph goalfn heur timeout ticks fuel start).1).expanded,
        goalfn n = false) →
      (aStarSearch graph goalfn heur timeout ticks fuel start).2 = ⟨[], 0, []⟩) := by
  constructor
  · refine aStarLoop_iter_bound graph goalfn heur timeout ticks N hT fuel _
      rfl ?_ (by simp)
    intro h
    exact absurd rfl h
  · exact aStarLoop_fail graph goalfn heur timeout ticks fuel _

/-- Witness for C3: a two-column world whose goal is unsatisfied at
the start and a clock that is already past the 1-second deadline at
its first sample; the search expands only the start node, returns the
failure value, and leaves both successors sitting in the open list. -/
theorem aStarSearch_timeout_poll_witness :
    (∀ i : Nat, 0 ≤ i → 1000 * 1 ≤ 2000) ∧
    (((aStarSearch (outgoingEdges objA) (goal [[⟨true, "ontop", ["a", "b"]⟩]])
        (fun _ => 0) 1 (fun _ => 2000) 40
        ⟨[["b"], ["a"]], none, 0⟩).1).expanded.length ≤ 0 + 1 ∧
      ((∀ n ∈ ((aStarSearch (outgoingEdges objA)
          (goal [[⟨true, "ontop", ["a", "b"]⟩]]) (fun _ => 0) 1 (fun _ => 2000)
          40 ⟨[["b"], ["a"]], none, 0⟩).1).expanded,
          goal [[⟨true, "ontop", ["a", "b"]⟩]] n = false) →
        (aStarSearch (outgoingEdges objA) (goal [[⟨true, "ontop", ["a", "b"]⟩]])
          (fun _ => 0) 1 (fun _ => 2000) 40
          ⟨[["b"], ["a"]], none, 0⟩).2 = ⟨[], 0, []⟩)) ∧
    ((aStarSearch (outgoingEdges objA) (goal [[⟨true, "ontop", ["a", "b"]⟩]])
        (fun _ => 0) 1 (fun _ => 2000) 40
        ⟨[["b"], ["a"]], none, 0⟩).1).openL.length = 2 :=
  ⟨fun _ _ => by norm_num,
    aStarSearch_timeout_poll (outgoingEdges objA)
      (goal [[⟨true, "ontop", ["a", "b"]⟩]]) (fun _ => 0) 1 (fun _ => 2000) 40
      ⟨[["b"], ["a"]], none, 0⟩ 0 (fun _ _ => by norm_num),
    by decide⟩

/-- C6 failing input: in a one-column world holding nothing, the goal
[[ontop(a,b)]] is unreachable (no object "b" exists), so the search
exhausts the open set and returns the empty result - exactly the value
returned when the goal [[ontop(a,floor)]] already holds at the start
node - and Planner.plan renders both as the single message "That is
already true!".  The claim requires the failure to be distinguishable
from the zero-action success; it is not. -/
theorem search_failure_indistinguishable :
    (aStarSearch (outgoingEdges objA) (goal [[⟨true, "ontop", ["a", "b"]⟩]])
        (heuristicP [[⟨true, "ontop", ["a", "b"]⟩]]) 100 (fun _ => 0) 10
        ⟨[["a"]], none, 0⟩).2 = ⟨[], 0, []⟩ ∧
    (aStarSearch (outgoingEdges objA) (goal [[⟨true, "ontop", ["a", "floor"]⟩]])
        (heuristicP [[⟨true, "ontop", ["a", "floor"]⟩]]) 100 (fun _ => 0) 10
        ⟨[["a"]], none, 0⟩).2 = ⟨[], 0, []⟩ ∧
    planOrAlreadyTrue (planInterpretation [[⟨true, "ontop", ["a", "b"]⟩]] objA
        [["a"]] none 0 (fun _ => 0) 10) = ["That is already true!"] ∧
    planOrAlreadyTrue (planInterpretation [[⟨true, "ontop", ["a", "floor"]⟩]]
        objA [["a"]] none 0 (fun _ => 0) 10) = ["That is already true!"] :=
  ⟨by decide, by decide, by decide, by decide⟩

end Shrdlite
